import Mathlib

/-!
# exhauststruct

A shallow embedding of the analyzer of `exhauststruct/exhauststruct.go`: the
declaration scan (`findStructs`), the fact publication (`exportFacts`) and the
literal check (`structCheck`, `makeStructChecker`), over the fragments of
`go/ast`, `go/types` and `go/analysis` that the analyzer reads and writes.

Go state is passed explicitly: the `Pass` record carries the type information,
the fact store and the diagnostics reported so far.  A Go run-time panic is an
`Except.error`.
-/

namespace Exhauststruct

/-! ## Host fragments: go/ast, go/types, go/analysis -/

/-- Run-time panics that the analyzer's statements can raise. -/
inductive RuntimeError where
  | typeAssertion
  | indexOutOfRange
  | nilDereference
  | nilObject
deriving DecidableEq, Repr

/-- An `*ast.Ident`: an identifier node, told apart by its position. -/
structure Ident where
  NamePos : Nat
  Name : String
deriving DecidableEq, Repr

/-- An `*ast.Comment`; `Text` holds the comment with its `//` marker. -/
structure Comment where
  Text : String
deriving DecidableEq, Repr

/-- An `*ast.CommentGroup`. -/
structure CommentGroup where
  List : List Comment
deriving DecidableEq, Repr

/-- An `*ast.Field`: one field entry; `Names` is empty for an embedded field. -/
structure Field where
  Names : List Ident
deriving DecidableEq, Repr

/-- An `*ast.FieldList`. -/
structure FieldList where
  List : List Field
deriving DecidableEq, Repr

/-- A type expression node: `*ast.StructType` (whose `Fields` pointer may be
nil) or any other type expression.  `Pos` is the node's position. -/
inductive TypeExpr where
  | StructType (Pos : Nat) (Fields : Option FieldList)
  | Other (Pos : Nat)
deriving DecidableEq, Repr

/-- The method `Pos()` of a type expression node. -/
def TypeExpr.Pos : TypeExpr → Nat
  | .StructType p _ => p
  | .Other p => p

/-- An `ast.Spec`: a type spec, or one of the other two kinds of spec. -/
inductive Spec where
  | TypeSpec (Name : Ident) (Type_ : TypeExpr)
  | ValueSpec
  | ImportSpec
deriving DecidableEq, Repr

/-- An `*ast.GenDecl`: a declaration group with its doc comment (nil when
absent) and its specs. -/
structure GenDecl where
  Doc : Option CommentGroup
  Specs : List Spec
deriving DecidableEq, Repr

/-- Expressions, as far as the analyzer looks into them: identifiers,
key-value elements, composite literals (whose `Type_` is nil when the type is
elided) and every other expression with its subexpressions. -/
inductive Expr where
  | Ident (id : Ident)
  | KeyValueExpr (Key : Expr) (Value : Expr)
  | CompositeLit (Type_ : Option TypeExpr) (Lbrace : Nat) (Elts : List Expr)
  | Other (sub : List Expr)

/-- The fields of an `*ast.CompositeLit` node. -/
structure CompositeLit where
  Type_ : Option TypeExpr
  Lbrace : Nat
  Elts : List Expr

/-- The method `Pos()` of a composite literal: the position of its type
expression, or of its opening brace when the type is elided. -/
def CompositeLit.Pos (l : CompositeLit) : Nat :=
  match l.Type_ with
  | some t => t.Pos
  | none => l.Lbrace

/-- A `*types.TypeName`: the symbol of a declared type. -/
structure TypeName where
  Pkg : String
  Name : String
deriving DecidableEq, Repr

/-- A `types.Type`, as far as the analyzer tells types apart: a `*types.Named`
with its `Obj()`, or anything else. -/
inductive GoType where
  | Named (Obj : TypeName)
  | Other
deriving DecidableEq, Repr

/-- The two maps of `types.Info` the analyzer reads: `Types`, from a type
expression node to its type, and `Defs`, from a defining identifier to the
type of the object it defines. -/
structure Info where
  Types : List (TypeExpr × GoType)
  Defs : List (Ident × GoType)

/-- The fact attached to an opted-in struct symbol. -/
structure structFact where
  fields : List String
deriving DecidableEq, Repr

/-- The pair of a struct symbol (a possibly nil `*types.TypeName`) and its
field names. -/
structure structType where
  TypeName : Option TypeName
  fields : List String
deriving DecidableEq, Repr

/-- The method `factObject` of `structType`. -/
def structType.factObject (et : structType) : Option Exhauststruct.TypeName :=
  et.TypeName

/-- A diagnostic handed to the pass: a position and a message. -/
structure Diagnostic where
  Pos : Nat
  Message : String
deriving DecidableEq, Repr

/-- The `*analysis.Pass` of one unit: its type information, the fact store (a
key-value list, newest entry first) and the diagnostics reported so far. -/
structure Pass where
  TypesInfo : Info
  facts : List (TypeName × structFact)
  diagnostics : List Diagnostic

/-- The traversals the analyzer asks of the `*inspector.Inspector`: the
`GenDecl` nodes of the unit in depth-first order, and the unit's outermost
expressions in depth-first order (through which its composite literals are
reached). -/
structure Inspector where
  GenDecls : List GenDecl
  Exprs : List Expr

/-- The call `pass.ExportObjectFact(obj, fact)`: writes the fact under the
object, over any earlier entry; a nil object panics. -/
def Pass.ExportObjectFact (pass : Pass) (obj : Option TypeName) (fact : structFact) :
    Except RuntimeError Pass :=
  match obj with
  | none => .error .nilObject
  | some o => .ok { pass with facts := (o, fact) :: pass.facts }

/-- The call `pass.ImportObjectFact(obj, &f)`: the fact stored under the
object, if any; a nil `*types.TypeName` is the key of no entry. -/
def Pass.ImportObjectFact (pass : Pass) (obj : Option TypeName) : Option structFact :=
  match obj with
  | none => none
  | some o => pass.facts.lookup o

/-- The call `pass.Reportf(pos, format, args...)` once the message is formatted. -/
def Pass.Reportf (pass : Pass) (pos : Nat) (msg : String) : Pass :=
  { pass with diagnostics := pass.diagnostics ++ [⟨pos, msg⟩] }

/-- The text `fmt.Sprintf("%s", e)` of an expression node: an identifier has a
`String` method, which yields its name; the rendering of any other node is
left to `fmtS`. -/
def sprintS (fmtS : Expr → String) : Expr → String
  | .Ident id => id.Name
  | e => fmtS e

/-! ## The analyzer -/

/-- The loop of `exhaustStruct` over the comments of the doc group. -/
def exhaustStructLoop : List Comment → Bool
  | [] => false
  | c :: cs => if c.Text = "//lint:exhauststruct" then true else exhaustStructLoop cs

/-- The function `exhaustStruct`; it dereferences `gendecl.Doc`. -/
def exhaustStruct (gendecl : GenDecl) : Except RuntimeError Bool :=
  match gendecl.Doc with
  | none => .error .nilDereference
  | some doc => .ok (exhaustStructLoop doc.List)

/-- The function `structTypeFromCompositeLit`. -/
def structTypeFromCompositeLit (l : CompositeLit) (info : Info) : structType :=
  match l.Type_.bind (fun t => info.Types.lookup t) with
  | some (.Named obj) => { TypeName := some obj, fields := [] }
  | _ => { TypeName := none, fields := [] }

/-- The function `structTypeFromGenDecl`: both type assertions and the method
call on the looked-up object can panic. -/
def structTypeFromGenDecl (g : GenDecl) (info : Info) : Except RuntimeError structType :=
  match g.Specs with
  | [] => .error .indexOutOfRange
  | .TypeSpec name _ :: _ =>
    match info.Defs.lookup name with
    | none => .error .nilDereference
    | some (.Named typeName) => .ok { TypeName := some typeName, fields := [] }
    | some _ => .error .typeAssertion
  | _ :: _ => .error .typeAssertion

/-- The field loop of `findStructs`: appends the first name of every entry. -/
def findStructsFields : List Field → List String → Except RuntimeError (List String)
  | [], fields => .ok fields
  | f :: fs, fields =>
    match f.Names with
    | [] => .error .indexOutOfRange
    | n :: _ => findStructsFields fs (fields ++ [n.Name])

/-- The callback of `findStructs`, run on one `GenDecl` with the result so far. -/
def findStructsVisit (info : Info) (result : List structType) (gendecl : GenDecl) :
    Except RuntimeError (List structType) :=
  if gendecl.Doc = none ∨ gendecl.Specs.length ≠ 1 then .ok result
  else
    match exhaustStruct gendecl with
    | .error e => .error e
    | .ok false => .ok result
    | .ok true =>
      match gendecl.Specs with
      | [] => .error .indexOutOfRange
      | .TypeSpec _ (.StructType _ (some specFields)) :: _ =>
        match findStructsFields specFields.List [] with
        | .error e => .error e
        | .ok fields =>
          match structTypeFromGenDecl gendecl info with
          | .error e => .error e
          | .ok st => .ok (result ++ [{ st with fields := fields }])
      | .TypeSpec _ _ :: _ => .ok result
      | _ :: _ => .error .typeAssertion

/-- The preorder walk of `findStructs` over the `GenDecl` nodes. -/
def findStructsLoop (info : Info) :
    List GenDecl → List structType → Except RuntimeError (List structType)
  | [], result => .ok result
  | g :: gs, result =>
    match findStructsVisit info result g with
    | .error e => .error e
    | .ok r => findStructsLoop info gs r

/-- The function `findStructs`. -/
def findStructs (inspect : Inspector) (info : Info) : Except RuntimeError (List structType) :=
  findStructsLoop info inspect.GenDecls []

/-- The function `exportFacts`. -/
def exportFacts : Pass → List structType → Except RuntimeError Pass
  | pass, [] => .ok pass
  | pass, s :: structs =>
    match pass.ExportObjectFact s.factObject { fields := s.fields } with
    | .error e => .error e
    | .ok p => exportFacts p structs

/-- The function `importFact`. -/
def importFact (pass : Pass) (possibleStructType : structType) : Option structFact :=
  pass.ImportObjectFact possibleStructType.factObject

/-- The function `compositeLitFields`: the key set, as the list of its keys. -/
def compositeLitFields (fmtS : Expr → String) (l : CompositeLit) : List String :=
  l.Elts.foldl
    (fun fields elt =>
      match elt with
      | .KeyValueExpr key _ => fields.insert (sprintS fmtS key)
      | _ => fields)
    []

/-- The closure returned by `makeStructChecker`, as a step on the pass. -/
def makeStructChecker (fmtS : Expr → String) (l : CompositeLit) (_push : Bool) (pass : Pass) :
    Bool × Pass :=
  let st := structTypeFromCompositeLit l pass.TypesInfo
  match importFact pass st with
  | none => (true, pass)
  | some fact =>
    let usedFields := compositeLitFields fmtS l
    let unusedFields := fact.fields.filter (fun f => decide (f ∉ usedFields))
    if unusedFields.length > 0 then
      (true, pass.Reportf l.Pos
        ("uninitialized struct fields: " ++ ", ".intercalate unusedFields))
    else (true, pass)

mutual
/-- The traversal `inspector.Nodes` restricted to composite literals, below one
expression: `f` is called on a literal before its children and, when that
call returns true, its children are visited and `f` is called once more
after them. -/
def nodes (f : CompositeLit → Bool → Pass → Bool × Pass) : Expr → Pass → Pass
  | .Ident _, pass => pass
  | .KeyValueExpr key value, pass => nodes f value (nodes f key pass)
  | .CompositeLit t lb elts, pass =>
    match f ⟨t, lb, elts⟩ true pass with
    | (true, p) => (f ⟨t, lb, elts⟩ false (nodesList f elts p)).2
    | (false, p) => p
  | .Other sub, pass => nodesList f sub pass
/-- The traversal of `nodes` over a list of sibling expressions, in order. -/
def nodesList (f : CompositeLit → Bool → Pass → Bool × Pass) : List Expr → Pass → Pass
  | [], pass => pass
  | e :: es, pass => nodesList f es (nodes f e pass)
end

/-- The function `structCheck`. -/
def structCheck (fmtS : Expr → String) (pass : Pass) (inspect : Inspector) : Pass :=
  nodesList (fun n push p => makeStructChecker fmtS n push p) inspect.Exprs pass

/-- The function `run`: scan, publish, check. -/
def run (fmtS : Expr → String) (inspect : Inspector) (pass : Pass) : Except RuntimeError Pass :=
  match findStructs inspect pass.TypesInfo with
  | .error e => .error e
  | .ok structs =>
    match exportFacts pass structs with
    | .error e => .error e
    | .ok p => .ok (structCheck fmtS p inspect)

/-! ## Vocabulary of the specification -/

/-- The names a literal keys, read off its elements: one name for each
key-value element, in order; a positional element names nothing. -/
def keyedNames (fmtS : Expr → String) (l : CompositeLit) : List String :=
  l.Elts.filterMap
    (fun elt =>
      match elt with
      | .KeyValueExpr key _ => some (sprintS fmtS key)
      | _ => none)

/-- The declared fields that a literal does not key, in declaration order. -/
def missingFields (fmtS : Expr → String) (F : List String) (l : CompositeLit) : List String :=
  F.filter (fun f => decide (f ∉ keyedNames fmtS l))

/-- The message of a diagnostic that lists the given field names. -/
def message (names : List String) : String :=
  "uninitialized struct fields: " ++ ", ".intercalate names

/-- The literal's type expression is recorded with the named type of symbol `obj`. -/
def resolvesTo (info : Info) (l : CompositeLit) (obj : TypeName) : Prop :=
  l.Type_.bind (fun t => info.Types.lookup t) = some (.Named obj)

instance (info : Info) (l : CompositeLit) (obj : TypeName) : Decidable (resolvesTo info l obj) :=
  inferInstanceAs (Decidable (_ = _))

/-- A literal is positional when none of its elements is a key-value element. -/
def positional (l : CompositeLit) : Bool :=
  l.Elts.all (fun elt => match elt with | .KeyValueExpr _ _ => false | _ => true)

mutual
/-- The composite literals at and below an expression, in depth-first order. -/
def literals : Expr → List CompositeLit
  | .Ident _ => []
  | .KeyValueExpr key value => literals key ++ literals value
  | .CompositeLit t lb elts => ⟨t, lb, elts⟩ :: literalsList elts
  | .Other sub => literalsList sub
/-- The composite literals at and below a list of expressions. -/
def literalsList : List Expr → List CompositeLit
  | [] => []
  | e :: es => literals e ++ literalsList es
end

/-- The store entry that `exportFacts` writes for a scanned struct. -/
def factEntries : List structType → List (TypeName × structFact)
  | [] => []
  | s :: structs =>
    match s.TypeName with
    | some o => (o, { fields := s.fields }) :: factEntries structs
    | none => factEntries structs

/-- The diagnostics that one call of the checker on a literal is to report,
given the type information and the store: none unless the literal's type is a
named type whose symbol has a fact and some field of the fact is not keyed. -/
def reported (fmtS : Expr → String) (info : Info) (facts : List (TypeName × structFact))
    (l : CompositeLit) : List Diagnostic :=
  match l.Type_.bind (fun t => info.Types.lookup t) with
  | some (.Named obj) =>
    match facts.lookup obj with
    | some fact =>
      if missingFields fmtS fact.fields l = [] then []
      else [⟨l.Pos, message (missingFields fmtS fact.fields l)⟩]
    | none => []
  | _ => []

mutual
/-- The diagnostics of the two visits of every literal at and below an
expression, in the order of the traversal. -/
def visits (fmtS : Expr → String) (info : Info) (facts : List (TypeName × structFact)) :
    Expr → List Diagnostic
  | .Ident _ => []
  | .KeyValueExpr key value => visits fmtS info facts key ++ visits fmtS info facts value
  | .CompositeLit t lb elts =>
    reported fmtS info facts ⟨t, lb, elts⟩ ++ visitsList fmtS info facts elts ++
      reported fmtS info facts ⟨t, lb, elts⟩
  | .Other sub => visitsList fmtS info facts sub
/-- The diagnostics of `visits` over a list of expressions. -/
def visitsList (fmtS : Expr → String) (info : Info) (facts : List (TypeName × structFact)) :
    List Expr → List Diagnostic
  | [] => []
  | e :: es => visits fmtS info facts e ++ visitsList fmtS info facts es
end

/-- The first declared name of every field entry, in order; an entry that
declares no name contributes none. -/
def firstNames (fl : List Field) : List String :=
  fl.filterMap (fun f => f.Names.head?.map (fun id => id.Name))

/-- The eligibility test in the words of the specification: the declaration is
the sole spec of its group, its doc comment has a line that is the sentinel,
and its type is a struct type with a non-empty field list.  Yields the
declared identifier and the field entries. -/
def eligible (g : GenDecl) : Option (Ident × List Field) :=
  match g.Doc, g.Specs with
  | some doc, [.TypeSpec name (.StructType _ (some fl))] =>
    if doc.List.any (fun c => decide (c.Text = "//lint:exhauststruct")) = true ∧ fl.List ≠ []
    then some (name, fl.List)
    else none
  | _, _ => none

/-- The declaration groups for which the scan appends an entry: the sole spec
of its group, a doc comment with a line that is the sentinel, and a struct
type whose field list is present, be it empty or not.  Yields the declared
identifier and the field entries. -/
def scanEligible (g : GenDecl) : Option (Ident × List Field) :=
  match g.Doc, g.Specs with
  | some doc, [.TypeSpec name (.StructType _ (some fl))] =>
    if doc.List.any (fun c => decide (c.Text = "//lint:exhauststruct")) then some (name, fl.List)
    else none
  | _, _ => none

/-- The fact that the scan and the publication write for a declaration group:
keyed by the symbol its identifier defines, with the first names of its
field entries; none for a group that the scan passes over. -/
def declFact (info : Info) (g : GenDecl) : Option (TypeName × structFact) :=
  match scanEligible g with
  | some (name, fl) =>
    match info.Defs.lookup name with
    | some (.Named typeName) => some (typeName, { fields := firstNames fl })
    | _ => none
  | none => none

/-! ## Concrete units -/

/-- The symbol of a struct `S` of package `p`. -/
def symS : TypeName := ⟨"p", "S"⟩

/-- The type expression `S` written at position 10. -/
def tyS : TypeExpr := .Other 10

/-- Type information of a unit in which the expression `tyS` denotes `S`. -/
def infoS : Info := { Types := [(tyS, .Named symS)], Defs := [] }

/-- A pass whose store holds the fact of `S` with fields a, b, c. -/
def passS : Pass :=
  { TypesInfo := infoS, facts := [(symS, ⟨["a", "b", "c"]⟩)], diagnostics := [] }

/-- A value expression that holds no literal. -/
def val : Expr := .Other []

/-- The literal `S{a: 1, c: 3}`. -/
def litAC : CompositeLit :=
  ⟨some tyS, 11, [.KeyValueExpr (.Ident ⟨12, "a"⟩) val, .KeyValueExpr (.Ident ⟨18, "c"⟩) val]⟩

/-- The literal `S{a: 1, b: 2, c: 3}`. -/
def litABC : CompositeLit :=
  ⟨some tyS, 11, [.KeyValueExpr (.Ident ⟨12, "a"⟩) val, .KeyValueExpr (.Ident ⟨18, "b"⟩) val,
    .KeyValueExpr (.Ident ⟨24, "c"⟩) val]⟩

/-- The positional literal `S{1, 2, 3}`. -/
def litPos : CompositeLit := ⟨some tyS, 11, [val, val, val]⟩

/-- A rendering of the nodes that have no `String` method. -/
def fmt0 : Expr → String := fun _ => "<expr>"

/-- The literal `S{c: 3, a: 1}`: the keys of `litAC` in the other order, under
the same type expression. -/
def litCA : CompositeLit :=
  ⟨some tyS, 41, [.KeyValueExpr (.Ident ⟨42, "c"⟩) val, .KeyValueExpr (.Ident ⟨48, "a"⟩) val]⟩

/-! ### The unit of `example/example.go` -/

/-- The package path of the example. -/
def examplePkg : String := "github.com/josebalius/exhauststruct/example"

/-- The symbol of `myStruct`. -/
def symMyStruct : TypeName := ⟨examplePkg, "myStruct"⟩

/-- The declaration `type myStruct struct { field string; field2 string; field3 int }`
with its doc comment, whose second line is the sentinel. -/
def declMyStruct : GenDecl :=
  { Doc := some ⟨[⟨"// myStruct is a struct"⟩, ⟨"//lint:exhauststruct"⟩]⟩,
    Specs := [.TypeSpec ⟨335, "myStruct"⟩
      (.StructType 344 (some ⟨[⟨[⟨354, "field"⟩]⟩, ⟨[⟨369, "field2"⟩]⟩, ⟨[⟨384, "field3"⟩]⟩]⟩))] }

/-- The `GenDecl` nodes of example.go in source order: the import group,
`type test struct{}`, `type myStruct struct {...}` and `type i int`. -/
def exampleGenDecls : List GenDecl :=
  [ { Doc := none, Specs := [.ImportSpec, .ImportSpec] },
    { Doc := some ⟨[⟨"// test does"⟩]⟩,
      Specs := [.TypeSpec ⟨270, "test"⟩ (.StructType 275 (some ⟨[]⟩))] },
    declMyStruct,
    { Doc := some ⟨[⟨"// Something else"⟩]⟩, Specs := [.TypeSpec ⟨421, "i"⟩ (.Other 423)] } ]

/-- The literal `myStruct{field: ""}` of `main`. -/
def litMyStruct : CompositeLit :=
  ⟨some (.Other 117), 125, [.KeyValueExpr (.Ident ⟨126, "field"⟩) (.Other [])]⟩

/-- The right-hand sides and calls of `main`, in source order. -/
def exampleExprs : List Expr :=
  [ .Other [.Ident ⟨106, "i"⟩, .Other []],
    .CompositeLit (some (.Other 117)) 125 [.KeyValueExpr (.Ident ⟨126, "field"⟩) (.Other [])],
    .CompositeLit (some (.Other 143)) 158 [],
    .CompositeLit (some (.Other 167)) 182 [],
    .Other [.Other [.Ident ⟨186, "fmt"⟩], .Ident ⟨198, "t"⟩],
    .Other [.Other [.Ident ⟨202, "fmt"⟩], .Ident ⟨214, "x"⟩],
    .Other [.Other [.Ident ⟨218, "fmt"⟩], .Ident ⟨230, "v"⟩],
    .Other [.Other [.Ident ⟨234, "fmt"⟩], .Ident ⟨246, "a"⟩] ]

/-- The inspector of example.go. -/
def exampleInspector : Inspector := ⟨exampleGenDecls, exampleExprs⟩

/-- The type information of example.go, as far as the analyzer reads it. -/
def exampleInfo : Info :=
  { Types :=
      [ (.Other 117, .Named symMyStruct),
        (.Other 143, .Named ⟨examplePkg ++ "/pkg", "SpecialType"⟩),
        (.Other 167, .Named ⟨examplePkg ++ "/pkg", "AnotherType"⟩),
        (.StructType 275 (some ⟨[]⟩), .Other),
        (.Other 423, .Other) ],
    Defs :=
      [ (⟨270, "test"⟩, .Named ⟨examplePkg, "test"⟩),
        (⟨335, "myStruct"⟩, .Named symMyStruct),
        (⟨421, "i"⟩, .Named ⟨examplePkg, "i"⟩) ] }

/-- The pass of example.go over an empty fact store. -/
def examplePass : Pass := { TypesInfo := exampleInfo, facts := [], diagnostics := [] }

/-! ### Declarations that the scan meets -/

/-- A doc comment that is the sentinel line alone. -/
def sentinelDoc : Option CommentGroup := some ⟨[⟨"//lint:exhauststruct"⟩]⟩

/-- The group `type ( A struct { x int }; B struct { y int } )` under the sentinel. -/
def declGroupOfTwo : GenDecl :=
  { Doc := sentinelDoc,
    Specs := [.TypeSpec ⟨20, "A"⟩ (.StructType 22 (some ⟨[⟨[⟨31, "x"⟩]⟩]⟩)),
              .TypeSpec ⟨40, "B"⟩ (.StructType 42 (some ⟨[⟨[⟨51, "y"⟩]⟩]⟩))] }

/-- The declaration `type T struct { io.Reader; n int }` under the sentinel: its
first field entry is embedded and declares no name. -/
def declEmbedded : GenDecl :=
  { Doc := sentinelDoc,
    Specs := [.TypeSpec ⟨26, "T"⟩ (.StructType 28 (some ⟨[⟨[]⟩, ⟨[⟨49, "n"⟩]⟩]⟩))] }

/-- The declaration `var x int` under the sentinel. -/
def declVar : GenDecl := { Doc := sentinelDoc, Specs := [.ValueSpec] }

/-- Type information in which the identifier `T` of `declEmbedded` defines the
named type `p.T`, and `A`, `B` of `declGroupOfTwo` define `p.A`, `p.B`. -/
def infoDecls : Info :=
  { Types := [],
    Defs := [ (⟨26, "T"⟩, .Named ⟨"p", "T"⟩), (⟨20, "A"⟩, .Named ⟨"p", "A"⟩),
              (⟨40, "B"⟩, .Named ⟨"p", "B"⟩) ] }

/-! ### Two units: `A` declares the struct, `B` builds a literal of it -/

/-- The declaration `type S struct { a int; b int; c int }` of unit A, under
the sentinel comment. -/
def declS : GenDecl :=
  { Doc := sentinelDoc,
    Specs := [.TypeSpec ⟨26, "S"⟩
      (.StructType 28 (some ⟨[⟨[⟨37, "a"⟩]⟩, ⟨[⟨44, "b"⟩]⟩, ⟨[⟨51, "c"⟩]⟩]⟩))] }

/-- Unit A: the declaration of `S` and no expression. -/
def unitA : Inspector := ⟨[declS], []⟩

/-- Type information of unit A: the identifier `S` defines the named type `p.S`. -/
def infoA : Info := { Types := [], Defs := [(⟨26, "S"⟩, .Named symS)] }

/-- The pass of unit A over an empty store. -/
def passA0 : Pass := { TypesInfo := infoA, facts := [], diagnostics := [] }

/-- Unit B: no declaration, and the literal `S{a: 1, c: 3}`. -/
def unitB : Inspector :=
  ⟨[], [.CompositeLit (some tyS) 11
    [.KeyValueExpr (.Ident ⟨12, "a"⟩) val, .KeyValueExpr (.Ident ⟨18, "c"⟩) val]]⟩

/-! ### Units for the scan of field lists and for nested literals -/

/-- The declaration `type E struct{}` under the sentinel: its field list is
present and has no entry. -/
def declEmpty : GenDecl :=
  { Doc := sentinelDoc, Specs := [.TypeSpec ⟨26, "E"⟩ (.StructType 28 (some ⟨[]⟩))] }

/-- The symbol of `E`. -/
def symE : TypeName := ⟨"p", "E"⟩

/-- Type information in which the identifier `E` defines the named type `p.E`
and the type expression at position 60 denotes it. -/
def infoE : Info := { Types := [(.Other 60, .Named symE)], Defs := [(⟨26, "E"⟩, .Named symE)] }

/-- The field entries of `struct { a, b int; c string }`. -/
def fieldsABC : List Field := [⟨[⟨37, "a"⟩, ⟨40, "b"⟩]⟩, ⟨[⟨47, "c"⟩]⟩]

/-- The declaration `type P struct { a, b int; c string }` under the sentinel. -/
def declP : GenDecl :=
  { Doc := sentinelDoc, Specs := [.TypeSpec ⟨26, "P"⟩ (.StructType 28 (some ⟨fieldsABC⟩))] }

/-- The symbol of `P`. -/
def symP : TypeName := ⟨"p", "P"⟩

/-- The literal `P{a: 1, c: ""}`, which leaves `b` out. -/
def litP : CompositeLit :=
  ⟨some (.Other 70), 71,
    [.KeyValueExpr (.Ident ⟨72, "a"⟩) val, .KeyValueExpr (.Ident ⟨78, "c"⟩) val]⟩

/-- Type information in which the identifier `P` defines the named type `p.P`
and the type expression at position 70 denotes it. -/
def infoP : Info := { Types := [(.Other 70, .Named symP)], Defs := [(⟨26, "P"⟩, .Named symP)] }

/-- The unit of `declP` and the literal `P{a: 1, c: ""}`. -/
def unitP : Inspector :=
  ⟨[declP], [.CompositeLit (some (.Other 70)) 71
    [.KeyValueExpr (.Ident ⟨72, "a"⟩) val, .KeyValueExpr (.Ident ⟨78, "c"⟩) val]]⟩

/-- The inner literal `{a: 1}` of `[]S{{a: 1}}`: its type is elided. -/
def litInner : CompositeLit := ⟨none, 14, [.KeyValueExpr (.Ident ⟨15, "a"⟩) val]⟩

/-- The unit of the expression `[]S{{a: 1}}`: the outer literal has the type
expression `[]S` at position 10, the inner literal none. -/
def unitNested : Inspector :=
  ⟨[], [.CompositeLit (some (.Other 10)) 13
    [.CompositeLit none 14 [.KeyValueExpr (.Ident ⟨15, "a"⟩) val]]]⟩

/-- Type information of `unitNested`: `[]S` is a slice type, no named type. -/
def infoNested : Info := { Types := [(.Other 10, .Other)], Defs := [] }

/-- The pass of `unitNested` over a store that holds the fact of `S`. -/
def passNested : Pass :=
  { TypesInfo := infoNested, facts := [(symS, ⟨["a", "b", "c"]⟩)], diagnostics := [] }

/-! ## The key set of a literal -/

theorem mem_foldl_keys (fmtS : Expr → String) (k : String) (elts : List Expr) (acc : List String) :
    k ∈ elts.foldl
        (fun fields elt =>
          match elt with
          | .KeyValueExpr key _ => fields.insert (sprintS fmtS key)
          | _ => fields) acc ↔
      k ∈ acc ∨ k ∈ elts.filterMap
        (fun elt =>
          match elt with
          | .KeyValueExpr key _ => some (sprintS fmtS key)
          | _ => none) := by
  induction elts generalizing acc with
  | nil => simp
  | cons e es ih =>
    rw [List.foldl_cons, ih]
    cases e <;> simp [List.filterMap_cons, List.mem_insert_iff, or_assoc, or_comm, or_left_comm]

theorem mem_compositeLitFields (fmtS : Expr → String) (l : CompositeLit) (k : String) :
    k ∈ compositeLitFields fmtS l ↔ k ∈ keyedNames fmtS l := by
  unfold compositeLitFields keyedNames
  rw [mem_foldl_keys]
  simp

theorem unused_eq_missing (fmtS : Expr → String) (F : List String) (l : CompositeLit) :
    F.filter (fun f => decide (f ∉ compositeLitFields fmtS l)) = missingFields fmtS F l := by
  unfold missingFields
  apply List.filter_congr
  intro f _
  simp [mem_compositeLitFields]

/-! ## One call of the checker -/

theorem importFact_of_resolvesTo (pass : Pass) (l : CompositeLit) (obj : TypeName)
    (h : resolvesTo pass.TypesInfo l obj) :
    importFact pass (structTypeFromCompositeLit l pass.TypesInfo) = pass.facts.lookup obj := by
  unfold resolvesTo at h
  simp [importFact, structTypeFromCompositeLit, h, structType.factObject, Pass.ImportObjectFact]

/-- What one call of the checker does, in the vocabulary of the specification. -/
theorem makeStructChecker_eq (fmtS : Expr → String) (l : CompositeLit) (push : Bool) (pass : Pass) :
    makeStructChecker fmtS l push pass =
      match importFact pass (structTypeFromCompositeLit l pass.TypesInfo) with
      | none => (true, pass)
      | some fact =>
        if missingFields fmtS fact.fields l = [] then (true, pass)
        else (true, pass.Reportf l.Pos (message (missingFields fmtS fact.fields l))) := by
  simp only [makeStructChecker, unused_eq_missing, message]
  generalize importFact pass (structTypeFromCompositeLit l pass.TypesInfo) = r
  cases r with
  | none => rfl
  | some fact =>
    by_cases hm : missingFields fmtS fact.fields l = []
    · simp [hm]
    · simp [hm, List.length_pos]

/-- C1. For a literal whose type resolves to a symbol with a fact of field list
F, if some field of F is not keyed by the literal, one call of the checker
reports exactly one diagnostic, at the literal's position, whose message is
"uninitialized struct fields: " followed by the fields of F that the literal
does not key, in the order of F, joined with ", "; the listed names are
exactly the declared fields that are not keyed. -/
theorem makeStructChecker_reports_missing (fmtS : Expr → String) (l : CompositeLit)
    (push : Bool) (pass : Pass) (obj : TypeName) (F : List String)
    (hres : resolvesTo pass.TypesInfo l obj)
    (hfact : pass.facts.lookup obj = some { fields := F })
    (hmiss : ∃ f, f ∈ F ∧ f ∉ keyedNames fmtS l) :
    makeStructChecker fmtS l push pass =
        (true, { pass with diagnostics := pass.diagnostics ++
          [{ Pos := l.Pos,
             Message := "uninitialized struct fields: " ++
               ", ".intercalate (F.filter (fun f => decide (f ∉ keyedNames fmtS l))) }] })
      ∧ (F.filter (fun f => decide (f ∉ keyedNames fmtS l))).Sublist F
      ∧ ∀ f, f ∈ F.filter (fun f => decide (f ∉ keyedNames fmtS l)) ↔
          f ∈ F ∧ f ∉ keyedNames fmtS l := by
  refine ⟨?_, List.filter_sublist F, fun f => by simp⟩
  rw [makeStructChecker_eq, importFact_of_resolvesTo pass l obj hres, hfact]
  obtain ⟨f, hf, hk⟩ := hmiss
  have hne : missingFields fmtS F l ≠ [] := by
    intro h
    have : f ∈ missingFields fmtS F l := by simp [missingFields, hf, hk]
    simp [h] at this
  simp only [hne, if_false]
  rfl

/-- C1, at the literal S{a: 1, c: 3} of the struct S{a, b, c}: only b is listed. -/
theorem makeStructChecker_reports_missing_witness :
    makeStructChecker fmt0 litAC true passS =
      (true, { passS with diagnostics := [⟨10, "uninitialized struct fields: b"⟩] }) := by
  have h := (makeStructChecker_reports_missing fmt0 litAC true passS symS ["a", "b", "c"]
    (by decide) (by decide) ⟨"b", by decide, by decide⟩).1
  rw [h]
  rfl

/-- C2. For a literal whose type resolves to a symbol with a fact of field list
F, if the literal keys every field of F, a call of the checker reports
nothing: the pass, and so its diagnostics, is left as it was. -/
theorem makeStructChecker_all_keyed (fmtS : Expr → String) (l : CompositeLit)
    (push : Bool) (pass : Pass) (obj : TypeName) (F : List String)
    (hres : resolvesTo pass.TypesInfo l obj)
    (hfact : pass.facts.lookup obj = some { fields := F })
    (hall : ∀ f, f ∈ F → f ∈ keyedNames fmtS l) :
    makeStructChecker fmtS l push pass = (true, pass) := by
  rw [makeStructChecker_eq, importFact_of_resolvesTo pass l obj hres, hfact]
  have : missingFields fmtS F l = [] := by
    simp only [missingFields, List.filter_eq_nil_iff]
    intro f hf
    simpa using hall f hf
  simp [this]

/-- C2, at the literal S{a: 1, b: 2, c: 3} of the struct S{a, b, c}. -/
theorem makeStructChecker_all_keyed_witness :
    (makeStructChecker fmt0 litABC true passS).2.diagnostics = [] := by
  rw [makeStructChecker_all_keyed fmt0 litABC true passS symS ["a", "b", "c"]
    (by decide) (by decide) (by decide)]
  rfl

/-! ## The traversal reports at both visits of a literal -/

/-- C3. On the unit of example.go over an empty store, `run` reports the one
offending literal `myStruct{field: ""}` twice: the traversal calls the checker
before and after the literal's children, and the checker reports at both
calls. -/
theorem run_example_reports_twice :
    ∃ p, run fmt0 exampleInspector examplePass = .ok p ∧
      literalsList exampleExprs =
        [litMyStruct, ⟨some (.Other 143), 158, []⟩, ⟨some (.Other 167), 182, []⟩] ∧
      p.diagnostics =
        [⟨117, "uninitialized struct fields: field2, field3"⟩,
         ⟨117, "uninitialized struct fields: field2, field3"⟩] :=
  ⟨_, rfl, rfl, by decide⟩

/-! ## Positional literals -/

/-- C4. The positional literal S{1, 2, 3} of the opted-in struct S{a, b, c}
is reported as missing every field. -/
theorem makeStructChecker_positional_reported :
    positional litPos = true ∧
      (makeStructChecker fmt0 litPos true passS).2.diagnostics =
        [⟨10, "uninitialized struct fields: a, b, c"⟩] :=
  ⟨by decide, by decide⟩

/-! ## The declaration scan -/

theorem findStructsLoop_append (info : Info) (pre post : List GenDecl) (result : List structType) :
    findStructsLoop info (pre ++ post) result =
      match findStructsLoop info pre result with
      | .error e => .error e
      | .ok r => findStructsLoop info post r := by
  induction pre generalizing result with
  | nil => rfl
  | cons g gs ih =>
    simp only [List.cons_append, findStructsLoop]
    cases findStructsVisit info result g with
    | error e => rfl
    | ok r => exact ih r

theorem findStructsVisit_of_two_le (info : Info) (result : List structType) (g : GenDecl)
    (h : 2 ≤ g.Specs.length) : findStructsVisit info result g = .ok result := by
  have hne : g.Specs.length ≠ 1 := by omega
  simp [findStructsVisit, hne]

/-- C7. A declaration group with two or more specs is skipped by the scan,
whatever its doc comment: the callback of `findStructs` returns the result it
was given, and both the scan and the whole run of a unit are the same as
for the unit without that group, so the group yields no entry and no fact. -/
theorem findStructs_skips_group (fmtS : Expr → String) (info : Info) (pass : Pass)
    (g : GenDecl) (pre post : List GenDecl) (exprs : List Expr) (result : List structType)
    (h : 2 ≤ g.Specs.length) :
    findStructsVisit info result g = .ok result ∧
      findStructs ⟨pre ++ g :: post, exprs⟩ info = findStructs ⟨pre ++ post, exprs⟩ info ∧
      run fmtS ⟨pre ++ g :: post, exprs⟩ pass = run fmtS ⟨pre ++ post, exprs⟩ pass := by
  have hscan : ∀ i : Info,
      findStructs ⟨pre ++ g :: post, exprs⟩ i = findStructs ⟨pre ++ post, exprs⟩ i := by
    intro i
    simp only [findStructs, findStructsLoop_append]
    cases findStructsLoop i pre [] with
    | error e => rfl
    | ok r => simp only [findStructsLoop, findStructsVisit_of_two_le i r g h]
  refine ⟨findStructsVisit_of_two_le info result g h, hscan info, ?_⟩
  simp only [run, hscan]
  rfl

/-- C7, at a group of two struct specs under the sentinel comment. -/
theorem findStructs_skips_group_witness :
    exhaustStruct declGroupOfTwo = .ok true ∧
      findStructs ⟨[declGroupOfTwo], []⟩ infoDecls = .ok [] :=
  ⟨rfl, (findStructs_skips_group fmt0 infoDecls passS declGroupOfTwo [] [] [] []
    (by decide)).2.1⟩

theorem exhaustStructLoop_iff (cs : List Comment) :
    exhaustStructLoop cs = true ↔ ∃ c, c ∈ cs ∧ c.Text = "//lint:exhauststruct" := by
  induction cs with
  | nil => simp [exhaustStructLoop]
  | cons c cs ih =>
    by_cases hc : c.Text = "//lint:exhauststruct"
    · simp [exhaustStructLoop, hc]
    · simp [exhaustStructLoop, hc, ih]

/-- C8. `exhaustStruct` is true exactly when some comment of the doc group has
the text "//lint:exhauststruct"; comments that differ from it by a space
after the slashes, or by leading or trailing white space, do not opt in. -/
theorem exhaustStruct_iff (g : GenDecl) :
    (exhaustStruct g = .ok true ↔
        ∃ doc, g.Doc = some doc ∧ ∃ c, c ∈ doc.List ∧ c.Text = "//lint:exhauststruct") ∧
      exhaustStruct
        { g with Doc := some ⟨[⟨"// lint:exhauststruct"⟩, ⟨"//lint:exhauststruct "⟩,
          ⟨" //lint:exhauststruct"⟩, ⟨"//lint:exhauststruct\t"⟩, ⟨"//Lint:exhauststruct"⟩]⟩ }
        = .ok false := by
  refine ⟨?_, rfl⟩
  unfold exhaustStruct
  cases hd : g.Doc with
  | none => simp
  | some doc =>
    simp only [Except.ok.injEq, Option.some.injEq, exists_eq_left', exhaustStructLoop_iff]

/-- C9. On the sentinel-carrying declaration `type T struct { io.Reader; n int }`
the scan panics: the embedded field entry has no name and `f.Names[0]` is out
of range. -/
theorem findStructs_embedded_panics :
    findStructs ⟨[declEmbedded], []⟩ infoDecls = .error .indexOutOfRange ∧
      run fmt0 ⟨[declEmbedded], []⟩ { passS with TypesInfo := infoDecls }
        = .error .indexOutOfRange :=
  ⟨rfl, rfl⟩

/-- C10. On the sentinel-carrying declaration `var x int` the scan panics: the
single spec is no type spec and the type assertion on it fails. -/
theorem findStructs_var_panics :
    findStructs ⟨[declVar], []⟩ infoDecls = .error .typeAssertion ∧
      run fmt0 ⟨[declVar], []⟩ { passS with TypesInfo := infoDecls }
        = .error .typeAssertion :=
  ⟨rfl, rfl⟩

/-! ## The traversal -/

theorem makeStructChecker_reported (fmtS : Expr → String) (l : CompositeLit) (push : Bool)
    (pass : Pass) :
    makeStructChecker fmtS l push pass =
      (true, { pass with diagnostics :=
        pass.diagnostics ++ reported fmtS pass.TypesInfo pass.facts l }) := by
  rw [makeStructChecker_eq]
  unfold reported importFact structTypeFromCompositeLit
  cases hty : l.Type_.bind (fun t => pass.TypesInfo.Types.lookup t) with
  | none => simp [structType.factObject, Pass.ImportObjectFact]
  | some ty =>
    cases ty with
    | Other => simp [structType.factObject, Pass.ImportObjectFact]
    | Named obj =>
      simp only [structType.factObject, Pass.ImportObjectFact]
      cases hf : pass.facts.lookup obj with
      | none => simp
      | some fact =>
        by_cases hm : missingFields fmtS fact.fields l = []
        · simp [hm]
        · simp [hm, Pass.Reportf]

mutual
theorem nodes_eq (fmtS : Expr → String) :
    ∀ (e : Expr) (pass : Pass),
      nodes (fun n push p => makeStructChecker fmtS n push p) e pass =
        { pass with diagnostics :=
          pass.diagnostics ++ visits fmtS pass.TypesInfo pass.facts e }
  | .Ident _, pass => by simp [nodes, visits]
  | .KeyValueExpr key value, pass => by
    simp only [nodes, visits]
    rw [nodes_eq fmtS key pass, nodes_eq fmtS value]
    simp [List.append_assoc]
  | .CompositeLit t lb elts, pass => by
    simp only [nodes, visits]
    rw [makeStructChecker_reported fmtS ⟨t, lb, elts⟩ true pass]
    simp only []
    rw [nodesList_eq fmtS elts, makeStructChecker_reported]
    simp [List.append_assoc]
  | .Other sub, pass => by
    simp only [nodes, visits]
    exact nodesList_eq fmtS sub pass
theorem nodesList_eq (fmtS : Expr → String) :
    ∀ (es : List Expr) (pass : Pass),
      nodesList (fun n push p => makeStructChecker fmtS n push p) es pass =
        { pass with diagnostics :=
          pass.diagnostics ++ visitsList fmtS pass.TypesInfo pass.facts es }
  | [], pass => by simp [nodesList, visitsList]
  | e :: es, pass => by
    simp only [nodesList, visitsList]
    rw [nodes_eq fmtS e pass, nodesList_eq fmtS es]
    simp [List.append_assoc]
end

mutual
theorem mem_visits (fmtS : Expr → String) (info : Info) (facts : List (TypeName × structFact))
    (d : Diagnostic) :
    ∀ e : Expr, d ∈ visits fmtS info facts e ↔
      ∃ l, l ∈ literals e ∧ d ∈ reported fmtS info facts l
  | .Ident _ => by simp [visits, literals]
  | .KeyValueExpr key value => by
    simp only [visits, literals, List.mem_append, mem_visits fmtS info facts d key,
      mem_visits fmtS info facts d value]
    constructor
    · rintro (⟨l, hl, hd⟩ | ⟨l, hl, hd⟩)
      · exact ⟨l, Or.inl hl, hd⟩
      · exact ⟨l, Or.inr hl, hd⟩
    · rintro ⟨l, hl | hl, hd⟩
      · exact Or.inl ⟨l, hl, hd⟩
      · exact Or.inr ⟨l, hl, hd⟩
  | .CompositeLit t lb elts => by
    simp only [visits, literals, List.mem_append, List.mem_cons,
      mem_visitsList fmtS info facts d elts]
    constructor
    · rintro ((hd | ⟨l, hl, hd⟩) | hd)
      · exact ⟨_, Or.inl rfl, hd⟩
      · exact ⟨l, Or.inr hl, hd⟩
      · exact ⟨_, Or.inl rfl, hd⟩
    · rintro ⟨l, rfl | hl, hd⟩
      · exact Or.inl (Or.inl hd)
      · exact Or.inl (Or.inr ⟨l, hl, hd⟩)
  | .Other sub => by
    simp only [visits, literals]
    exact mem_visitsList fmtS info facts d sub
theorem mem_visitsList (fmtS : Expr → String) (info : Info)
    (facts : List (TypeName × structFact)) (d : Diagnostic) :
    ∀ es : List Expr, d ∈ visitsList fmtS info facts es ↔
      ∃ l, l ∈ literalsList es ∧ d ∈ reported fmtS info facts l
  | [] => by simp [visitsList, literalsList]
  | e :: es => by
    simp only [visitsList, literalsList, List.mem_append, mem_visits fmtS info facts d e,
      mem_visitsList fmtS info facts d es]
    constructor
    · rintro (⟨l, hl, hd⟩ | ⟨l, hl, hd⟩)
      · exact ⟨l, Or.inl hl, hd⟩
      · exact ⟨l, Or.inr hl, hd⟩
    · rintro ⟨l, hl | hl, hd⟩
      · exact Or.inl ⟨l, hl, hd⟩
      · exact Or.inr ⟨l, hl, hd⟩
end

/-! ## Publication and the whole run -/

theorem exportFacts_eq (structs : List structType) :
    ∀ pass : Pass, (∀ s, s ∈ structs → ∃ o, s.TypeName = some o) →
      exportFacts pass structs =
        .ok { pass with facts := (factEntries structs).reverse ++ pass.facts } := by
  induction structs with
  | nil => intro pass _; simp [exportFacts, factEntries]
  | cons s structs ih =>
    intro pass h
    obtain ⟨o, ho⟩ := h s (List.mem_cons_self _ _)
    simp only [exportFacts, structType.factObject, ho, Pass.ExportObjectFact, factEntries]
    rw [ih _ (fun s hs => h s (List.mem_cons_of_mem _ hs))]
    simp

theorem structTypeFromGenDecl_typeName (g : GenDecl) (info : Info) (st : structType)
    (h : structTypeFromGenDecl g info = .ok st) : ∃ o, st.TypeName = some o := by
  unfold structTypeFromGenDecl at h
  split at h
  · cases h
  · split at h
    · cases h
    · next typeName _ => cases h; exact ⟨typeName, rfl⟩
    · cases h
  · cases h

theorem findStructsVisit_typeName (info : Info) (result r : List structType) (g : GenDecl)
    (h : findStructsVisit info result g = .ok r)
    (hres : ∀ s, s ∈ result → ∃ o, s.TypeName = some o) :
    ∀ s, s ∈ r → ∃ o, s.TypeName = some o := by
  unfold findStructsVisit at h
  split at h
  · cases h; exact hres
  · split at h
    · cases h
    · cases h; exact hres
    · split at h
      · cases h
      · split at h
        · cases h
        · split at h
          · cases h
          · next st hst =>
            cases h
            intro s hs
            rcases List.mem_append.1 hs with hs | hs
            · exact hres s hs
            · obtain ⟨o, ho⟩ := structTypeFromGenDecl_typeName _ _ _ hst
              rw [List.mem_singleton.1 hs]
              exact ⟨o, ho⟩
      · cases h; exact hres
      · cases h

theorem findStructsLoop_typeName (info : Info) (gs : List GenDecl) :
    ∀ (result r : List structType), findStructsLoop info gs result = .ok r →
      (∀ s, s ∈ result → ∃ o, s.TypeName = some o) →
      ∀ s, s ∈ r → ∃ o, s.TypeName = some o := by
  induction gs with
  | nil => intro result r h hres; simp only [findStructsLoop] at h; cases h; exact hres
  | cons g gs ih =>
    intro result r h hres
    simp only [findStructsLoop] at h
    cases hv : findStructsVisit info result g with
    | error e => rw [hv] at h; cases h
    | ok r1 =>
      rw [hv] at h
      exact ih r1 r h (findStructsVisit_typeName info result r1 g hv hres)

theorem findStructs_typeName (inspect : Inspector) (info : Info) (structs : List structType)
    (h : findStructs inspect info = .ok structs) :
    ∀ s, s ∈ structs → ∃ o, s.TypeName = some o :=
  findStructsLoop_typeName info inspect.GenDecls [] structs h (by simp)

/-- The run, once the scan has succeeded: the facts of the scanned structs are
put before the store and the diagnostics of every visit are appended. -/
theorem run_eq_of_findStructs (fmtS : Expr → String) (inspect : Inspector) (pass : Pass)
    (structs : List structType) (h : findStructs inspect pass.TypesInfo = .ok structs) :
    run fmtS inspect pass =
      .ok { TypesInfo := pass.TypesInfo,
            facts := (factEntries structs).reverse ++ pass.facts,
            diagnostics := pass.diagnostics ++
              visitsList fmtS pass.TypesInfo ((factEntries structs).reverse ++ pass.facts)
                inspect.Exprs } := by
  simp only [run, h, exportFacts_eq structs pass (findStructs_typeName _ _ _ h), structCheck,
    nodesList_eq]

theorem findStructs_ok_of_run (fmtS : Expr → String) (inspect : Inspector) (pass pass' : Pass)
    (h : run fmtS inspect pass = .ok pass') :
    ∃ structs, findStructs inspect pass.TypesInfo = .ok structs := by
  unfold run at h
  cases hs : findStructs inspect pass.TypesInfo with
  | error e => rw [hs] at h; cases h
  | ok structs => exact ⟨structs, rfl⟩

theorem mem_factEntries (structs : List structType) (o : TypeName) (fact : structFact) :
    (o, fact) ∈ factEntries structs ↔
      ∃ s, s ∈ structs ∧ s.TypeName = some o ∧ fact = { fields := s.fields } := by
  induction structs with
  | nil => simp [factEntries]
  | cons s structs ih =>
    cases hs : s.TypeName with
    | none => simp [factEntries, hs, ih]
    | some o1 =>
      simp only [factEntries, hs, List.mem_cons, Prod.mk.injEq, ih, exists_eq_or_imp,
        Option.some.injEq]
      constructor
      · rintro (⟨rfl, rfl⟩ | h)
        · exact Or.inl ⟨rfl, rfl⟩
        · exact Or.inr h
      · rintro (⟨rfl, rfl⟩ | h)
        · exact Or.inl ⟨rfl, rfl⟩
        · exact Or.inr h

theorem mem_of_lookup_eq_some (xs : List (TypeName × structFact)) (o : TypeName)
    (fact : structFact) (h : xs.lookup o = some fact) : (o, fact) ∈ xs := by
  induction xs with
  | nil => simp at h
  | cons x xs ih =>
    obtain ⟨k, v⟩ := x
    rw [List.lookup_cons] at h
    by_cases hk : o = k
    · subst hk
      simp at h
      simp [h]
    · have : (o == k) = false := by simpa using hk
      rw [this] at h
      exact List.mem_cons_of_mem _ (ih h)

theorem lookup_isSome_of_mem (xs : List (TypeName × structFact)) (o : TypeName)
    (fact : structFact) (h : (o, fact) ∈ xs) : ∃ fact1, xs.lookup o = some fact1 := by
  induction xs with
  | nil => simp at h
  | cons x xs ih =>
    obtain ⟨k, v⟩ := x
    rw [List.lookup_cons]
    by_cases hk : o = k
    · subst hk; exact ⟨v, by simp⟩
    · have hb : (o == k) = false := by simpa using hk
      rw [hb]
      rcases List.mem_cons.1 h with h | h
      · cases h; exact absurd rfl hk
      · exact ih h

theorem mem_reported (fmtS : Expr → String) (info : Info) (facts : List (TypeName × structFact))
    (l : CompositeLit) (d : Diagnostic) (h : d ∈ reported fmtS info facts l) :
    ∃ obj fact, resolvesTo info l obj ∧ facts.lookup obj = some fact ∧
      missingFields fmtS fact.fields l ≠ [] ∧
      d = ⟨l.Pos, message (missingFields fmtS fact.fields l)⟩ := by
  unfold reported at h
  split at h
  · next obj hty =>
    split at h
    · next fact hf =>
      split at h
      · simp at h
      · next hm => exact ⟨obj, fact, hty, hf, hm, by simpa using h⟩
    · simp at h
  · simp at h

theorem reported_of_fact (fmtS : Expr → String) (info : Info)
    (facts : List (TypeName × structFact)) (l : CompositeLit) (obj : TypeName) (F : List String)
    (hres : resolvesTo info l obj) (hf : facts.lookup obj = some { fields := F })
    (hm : missingFields fmtS F l ≠ []) :
    reported fmtS info facts l = [⟨l.Pos, message (missingFields fmtS F l)⟩] := by
  unfold resolvesTo at hres
  simp [reported, hres, hf, hm]

theorem reported_of_no_fact (fmtS : Expr → String) (info : Info)
    (facts : List (TypeName × structFact)) (l : CompositeLit)
    (h : ∀ obj, resolvesTo info l obj → facts.lookup obj = none) :
    reported fmtS info facts l = [] := by
  unfold reported
  split
  · next obj hty => simp [h obj hty]
  · rfl

theorem lookup_append_eq_some (xs ys : List (TypeName × structFact)) (o : TypeName)
    (fact : structFact) (h : (xs ++ ys).lookup o = some fact) :
    (o, fact) ∈ xs ∨ ys.lookup o = some fact := by
  rw [List.lookup_append] at h
  cases hx : xs.lookup o with
  | none => rw [hx] at h; exact Or.inr (by simpa using h)
  | some f1 =>
    rw [hx] at h
    have : f1 = fact := by simpa using h
    exact Or.inl (this ▸ mem_of_lookup_eq_some xs o f1 hx)

theorem lookup_append_of_not_mem (xs ys : List (TypeName × structFact)) (o : TypeName)
    (h : ∀ fact, (o, fact) ∉ xs) : (xs ++ ys).lookup o = ys.lookup o := by
  rw [List.lookup_append]
  cases hx : xs.lookup o with
  | none => simp
  | some f1 => exact absurd (mem_of_lookup_eq_some xs o f1 hx) (h f1)

/-- The fact that the store holds for a symbol after the facts of a scan are
put before it, when every scanned struct of that symbol has the fields `F`. -/
theorem lookup_published (structs : List structType) (store : List (TypeName × structFact))
    (T : TypeName) (F : List String)
    (hT : ∃ s, s ∈ structs ∧ s.TypeName = some T)
    (huniq : ∀ s, s ∈ structs → s.TypeName = some T → s.fields = F) :
    ((factEntries structs).reverse ++ store).lookup T = some { fields := F } := by
  obtain ⟨s, hs, hsT⟩ := hT
  have hmem : (T, ({ fields := s.fields } : structFact)) ∈ (factEntries structs).reverse :=
    List.mem_reverse.2 ((mem_factEntries structs T _).2 ⟨s, hs, hsT, rfl⟩)
  obtain ⟨f1, hf1⟩ := lookup_isSome_of_mem _ _ _ hmem
  have hin := List.mem_reverse.1 (mem_of_lookup_eq_some _ _ _ hf1)
  obtain ⟨s1, hs1, hs1T, rfl⟩ := (mem_factEntries structs T f1).1 hin
  rw [List.lookup_append, hf1, huniq s1 hs1 hs1T]
  rfl

/-- The store's entry for a symbol that no scanned struct has is left as it was. -/
theorem lookup_not_published (structs : List structType) (store : List (TypeName × structFact))
    (T : TypeName) (h : ∀ s, s ∈ structs → s.TypeName ≠ some T) :
    ((factEntries structs).reverse ++ store).lookup T = store.lookup T := by
  apply lookup_append_of_not_mem
  intro fact hmem
  obtain ⟨s, hs, hsT, _⟩ := (mem_factEntries structs T fact).1 (List.mem_reverse.1 hmem)
  exact h s hs hsT

theorem resolvesTo_unique (info : Info) (l : CompositeLit) (o1 o2 : TypeName)
    (h1 : resolvesTo info l o1) (h2 : resolvesTo info l o2) : o1 = o2 := by
  unfold resolvesTo at h1 h2
  rw [h1] at h2
  simpa using h2

/-- C5. Every diagnostic that a run adds is at a composite literal of the unit
whose type expression is recorded with a named type whose symbol has a fact
in the store the check phase reads; that fact was published by a struct the
scan of this unit found, or was in the store before.  So a call of the
checker on a literal whose type is no named type, or is a named type whose
symbol has no fact, reports nothing, whatever fields the literal keys. -/
theorem run_diagnostics_at_fact_literals (fmtS : Expr → String) (inspect : Inspector)
    (pass pass' : Pass) (h : run fmtS inspect pass = .ok pass') :
    (∃ structs new, findStructs inspect pass.TypesInfo = .ok structs ∧
        pass'.diagnostics = pass.diagnostics ++ new ∧
        ∀ d, d ∈ new → ∃ l obj, l ∈ literalsList inspect.Exprs ∧ d.Pos = l.Pos ∧
          resolvesTo pass.TypesInfo l obj ∧
          (∃ fact, pass'.facts.lookup obj = some fact) ∧
          ((∃ s, s ∈ structs ∧ s.TypeName = some obj) ∨
            ∃ fact, pass.facts.lookup obj = some fact)) ∧
      ∀ (l : CompositeLit) (push : Bool) (p : Pass),
        (∀ obj, resolvesTo p.TypesInfo l obj → p.facts.lookup obj = none) →
          makeStructChecker fmtS l push p = (true, p) := by
  constructor
  · obtain ⟨structs, hs⟩ := findStructs_ok_of_run fmtS inspect pass pass' h
    rw [run_eq_of_findStructs fmtS inspect pass structs hs] at h
    cases h
    refine ⟨structs, _, hs, rfl, ?_⟩
    intro d hd
    obtain ⟨l, hl, hdl⟩ := (mem_visitsList fmtS _ _ d inspect.Exprs).1 hd
    obtain ⟨obj, fact, hres, hf, _, hdeq⟩ := mem_reported fmtS _ _ l d hdl
    refine ⟨l, obj, hl, by rw [hdeq], hres, ⟨fact, hf⟩, ?_⟩
    rcases lookup_append_eq_some _ _ _ _ hf with hmem | hstore
    · obtain ⟨s, hs1, hsT, _⟩ := (mem_factEntries structs obj fact).1 (List.mem_reverse.1 hmem)
      exact Or.inl ⟨s, hs1, hsT⟩
    · exact Or.inr ⟨fact, hstore⟩
  · intro l push p hno
    rw [makeStructChecker_reported, reported_of_no_fact fmtS _ _ l hno]
    simp

/-- C5, at the unit of example.go over an empty store: the run succeeds, and
a call of the checker on `pkg.SpecialType{}`, whose symbol has no fact, reports
nothing. -/
theorem run_diagnostics_at_fact_literals_witness :
    (∃ p, run fmt0 exampleInspector examplePass = .ok p) ∧
      makeStructChecker fmt0 ⟨some (.Other 143), 158, []⟩ true examplePass
        = (true, examplePass) :=
  ⟨⟨_, rfl⟩, (run_diagnostics_at_fact_literals fmt0 exampleInspector examplePass _ rfl).2
    ⟨some (.Other 143), 158, []⟩ true examplePass (by intro obj _; rfl)⟩

/-! ## Facts across units -/

/-- C6. Let the run of unit A against some store succeed, and let the scan of
A find the struct of symbol T with fields F (and no struct of T with other
fields).  Let l be a literal of unit B whose type resolves to T and that does
not key some field of F, where B itself declares no struct of symbol T.  Then
the run of B against the store that A's run produced succeeds and reports, at
the position of l, the diagnostic that lists the fields of F that l does
not key.  Against any store without a fact for T the run of B succeeds as
well, every call of the checker on l reports nothing, and every reported
diagnostic is at a literal whose type resolves to a symbol other than T. -/
theorem cross_unit_fact_visibility (fmtS : Expr → String) (A B : Inspector)
    (passA0 passA : Pass) (infoB : Info) (structsA structsB : List structType)
    (T : TypeName) (F : List String) (l : CompositeLit)
    (hA : run fmtS A passA0 = .ok passA)
    (hsA : findStructs A passA0.TypesInfo = .ok structsA)
    (hT : ∃ s, s ∈ structsA ∧ s.TypeName = some T)
    (huniq : ∀ s, s ∈ structsA → s.TypeName = some T → s.fields = F)
    (hsB : findStructs B infoB = .ok structsB)
    (hB : ∀ s, s ∈ structsB → s.TypeName ≠ some T)
    (hl : l ∈ literalsList B.Exprs)
    (hres : resolvesTo infoB l T)
    (homit : ∃ f, f ∈ F ∧ f ∉ keyedNames fmtS l) :
    (∃ passB, run fmtS B { TypesInfo := infoB, facts := passA.facts, diagnostics := [] }
          = .ok passB ∧
        (⟨l.Pos, "uninitialized struct fields: " ++
          ", ".intercalate (F.filter (fun f => decide (f ∉ keyedNames fmtS l)))⟩ : Diagnostic)
          ∈ passB.diagnostics) ∧
      ∀ store : List (TypeName × structFact), store.lookup T = none →
        ∃ passB, run fmtS B { TypesInfo := infoB, facts := store, diagnostics := [] }
            = .ok passB ∧
          (∀ (push : Bool) (p : Pass), p.TypesInfo = infoB → p.facts = passB.facts →
            makeStructChecker fmtS l push p = (true, p)) ∧
          ∀ d, d ∈ passB.diagnostics → ∃ l1 obj, l1 ∈ literalsList B.Exprs ∧ obj ≠ T ∧
            resolvesTo infoB l1 obj ∧ d.Pos = l1.Pos := by
  rw [run_eq_of_findStructs fmtS A passA0 structsA hsA] at hA
  cases hA
  have hne : missingFields fmtS F l ≠ [] := by
    obtain ⟨f, hf, hk⟩ := homit
    intro h0
    have : f ∈ missingFields fmtS F l := by simp [missingFields, hf, hk]
    simp [h0] at this
  constructor
  · refine ⟨_, run_eq_of_findStructs fmtS B ⟨infoB, _, []⟩ structsB hsB, ?_⟩
    simp only [List.nil_append]
    apply (mem_visitsList fmtS _ _ _ B.Exprs).2
    refine ⟨l, hl, ?_⟩
    have hlook : ((factEntries structsB).reverse ++
        ((factEntries structsA).reverse ++ passA0.facts)).lookup T = some { fields := F } := by
      rw [lookup_not_published structsB _ T hB]
      exact lookup_published structsA _ T F hT huniq
    rw [reported_of_fact fmtS infoB _ l T F hres hlook hne]
    exact List.mem_singleton.2 rfl
  · intro store hstore
    have hlook : ((factEntries structsB).reverse ++ store).lookup T = none := by
      rw [lookup_not_published structsB _ T hB]
      exact hstore
    refine ⟨_, run_eq_of_findStructs fmtS B ⟨infoB, store, []⟩ structsB hsB, ?_, ?_⟩
    · intro push p hinfo hfacts
      rw [makeStructChecker_reported, reported_of_no_fact fmtS _ _ l]
      · simp
      · intro obj hobj
        rw [hinfo] at hobj
        rw [hfacts, resolvesTo_unique infoB l obj T hobj hres]
        exact hlook
    · intro d hd
      simp only [List.nil_append] at hd
      obtain ⟨l1, hl1, hdl⟩ := (mem_visitsList fmtS _ _ d B.Exprs).1 hd
      obtain ⟨obj, fact, hres1, hf, _, hdeq⟩ := mem_reported fmtS _ _ l1 d hdl
      refine ⟨l1, obj, hl1, ?_, hres1, by rw [hdeq]⟩
      rintro rfl
      rw [hlook] at hf
      cases hf

/-- C6, at unit A declaring S{a, b, c} under the sentinel and unit B holding
the literal S{a: 1, c: 3}: after A, the run of B lists b; against the empty
store it reports nothing. -/
theorem cross_unit_fact_visibility_witness :
    (∃ passB, run fmt0 unitB ⟨infoS, [(symS, ⟨["a", "b", "c"]⟩)], []⟩ = .ok passB ∧
        (⟨10, "uninitialized struct fields: b"⟩ : Diagnostic) ∈ passB.diagnostics) ∧
      ∃ passB, run fmt0 unitB ⟨infoS, [], []⟩ = .ok passB ∧ passB.diagnostics = [] := by
  have h := cross_unit_fact_visibility fmt0 unitA unitB passA0
    ⟨infoA, [(symS, ⟨["a", "b", "c"]⟩)], []⟩ infoS
    [⟨some symS, ["a", "b", "c"]⟩] [] symS ["a", "b", "c"] litAC rfl rfl
    ⟨_, List.mem_singleton.2 rfl, rfl⟩
    (by intro s hs _; rw [List.mem_singleton.1 hs])
    rfl (by intro s hs; cases hs) (List.mem_cons_self _ _) (by decide)
    ⟨"b", by decide, by decide⟩
  refine ⟨h.1, ?_⟩
  obtain ⟨passB, hrun, _, hd⟩ := h.2 [] rfl
  refine ⟨passB, hrun, ?_⟩
  have hrun2 : run fmt0 unitB ⟨infoS, [], []⟩ = .ok ⟨infoS, [], []⟩ := rfl
  rw [hrun2] at hrun
  cases hrun
  rfl

/-! ## The field list that the scan extracts -/

theorem findStructsFields_ok (fl : List Field) :
    ∀ acc : List String, (∀ f, f ∈ fl → f.Names ≠ []) →
      findStructsFields fl acc = .ok (acc ++ firstNames fl) := by
  induction fl with
  | nil => intro acc _; simp [findStructsFields, firstNames]
  | cons f fs ih =>
    intro acc h
    have hf := h f (List.mem_cons_self _ _)
    cases hn : f.Names with
    | nil => exact absurd hn hf
    | cons n ns =>
      have htail := ih (acc ++ [n.Name]) (fun g hg => h g (List.mem_cons_of_mem _ hg))
      simp only [findStructsFields, hn, htail]
      simp [firstNames, List.filterMap_cons, hn]

theorem findStructsFields_eq_ok (fl : List Field) :
    ∀ acc fields : List String, findStructsFields fl acc = .ok fields →
      (∀ f, f ∈ fl → f.Names ≠ []) ∧ fields = acc ++ firstNames fl := by
  induction fl with
  | nil =>
    intro acc fields h
    simp only [findStructsFields] at h
    cases h
    simp [firstNames]
  | cons f fs ih =>
    intro acc fields h
    cases hn : f.Names with
    | nil => simp [findStructsFields, hn] at h
    | cons n ns =>
      simp only [findStructsFields, hn] at h
      obtain ⟨hall, hfields⟩ := ih _ _ h
      refine ⟨?_, ?_⟩
      · intro g hg
        rcases List.mem_cons.1 hg with rfl | hg
        · simp [hn]
        · exact hall g hg
      · rw [hfields]
        simp [firstNames, List.filterMap_cons, hn]

theorem exhaustStructLoop_eq_any (cs : List Comment) :
    exhaustStructLoop cs = cs.any (fun c => decide (c.Text = "//lint:exhauststruct")) := by
  induction cs with
  | nil => rfl
  | cons c cs ih =>
    by_cases hc : c.Text = "//lint:exhauststruct"
    · simp [exhaustStructLoop, hc]
    · simp [exhaustStructLoop, hc, ih]

/-- The callback of the scan on a sentinel-carrying declaration of a single
struct type spec whose field entries all declare a name. -/
theorem findStructsVisit_struct (info : Info) (result : List structType) (doc : CommentGroup)
    (name : Ident) (p : Nat) (fl : List Field) (T : TypeName)
    (hsent : ∃ c, c ∈ doc.List ∧ c.Text = "//lint:exhauststruct")
    (hdef : info.Defs.lookup name = some (.Named T))
    (hnames : ∀ f, f ∈ fl → f.Names ≠ []) :
    findStructsVisit info result
        { Doc := some doc, Specs := [.TypeSpec name (.StructType p (some ⟨fl⟩))] }
      = .ok (result ++ [{ TypeName := some T, fields := firstNames fl }]) := by
  have hloop : exhaustStructLoop doc.List = true := (exhaustStructLoop_iff doc.List).2 hsent
  simp [findStructsVisit, exhaustStruct, hloop, findStructsFields_ok fl [] hnames,
    structTypeFromGenDecl, hdef]

theorem makeStructChecker_of_all_keyed (fmtS : Expr → String) (l : CompositeLit) (push : Bool)
    (pass : Pass) (obj : TypeName) (F : List String)
    (hres : resolvesTo pass.TypesInfo l obj)
    (hfact : pass.facts.lookup obj = some { fields := F })
    (hall : ∀ f, f ∈ F → f ∈ keyedNames fmtS l) :
    makeStructChecker fmtS l push pass = (true, pass) := by
  rw [makeStructChecker_eq, importFact_of_resolvesTo pass l obj hres, hfact]
  have : missingFields fmtS F l = [] := by
    simp only [missingFields, List.filter_eq_nil_iff]
    intro f hf
    simpa using hall f hf
  simp [this]

theorem mem_firstNames (fl : List Field) (n : String) :
    n ∈ firstNames fl ↔ ∃ f id rest, f ∈ fl ∧ f.Names = id :: rest ∧ id.Name = n := by
  simp only [firstNames, List.mem_filterMap, Option.map_eq_some', List.head?_eq_some_iff]
  constructor
  · rintro ⟨f, hf, id, ⟨rest, hn⟩, rfl⟩
    exact ⟨f, id, rest, hf, hn, rfl⟩
  · rintro ⟨f, id, rest, hf, hn, rfl⟩
    exact ⟨f, hf, id, ⟨rest, hn⟩, rfl⟩

theorem firstNames_getElem (fl : List Field) (h : ∀ f, f ∈ fl → f.Names ≠ []) :
    ∀ i : Nat, (firstNames fl)[i]? =
      (fl[i]?).bind (fun f => f.Names.head?.map (fun id => id.Name)) := by
  induction fl with
  | nil => intro i; simp [firstNames]
  | cons f fs ih =>
    intro i
    have hf := h f (List.mem_cons_self _ _)
    have ih1 := ih (fun g hg => h g (List.mem_cons_of_mem _ hg))
    cases hn : f.Names with
    | nil => exact absurd hn hf
    | cons n ns =>
      have hcons : firstNames (f :: fs) = n.Name :: firstNames fs := by
        simp [firstNames, List.filterMap_cons, hn]
      rw [hcons]
      cases i with
      | zero => simp [hn]
      | succ j => simpa using ih1 j

theorem firstNames_length (fl : List Field) (h : ∀ f, f ∈ fl → f.Names ≠ []) :
    (firstNames fl).length = fl.length := by
  induction fl with
  | nil => rfl
  | cons f fs ih =>
    have hf := h f (List.mem_cons_self _ _)
    cases hn : f.Names with
    | nil => exact absurd hn hf
    | cons n ns =>
      have hcons : firstNames (f :: fs) = n.Name :: firstNames fs := by
        simp [firstNames, List.filterMap_cons, hn]
      rw [hcons, List.length_cons, List.length_cons,
        ih (fun g hg => h g (List.mem_cons_of_mem _ hg))]

/-- C11, the claim refuted. The sentinel-carrying declaration `type E struct{}`
is scanned as an entry with an empty field list, and the run publishes a
fact for its symbol. -/
theorem findStructs_empty_struct_entry :
    findStructs ⟨[declEmpty], []⟩ infoE = .ok [{ TypeName := some symE, fields := [] }] ∧
      findStructs ⟨[declEmpty], []⟩ infoE ≠ .ok [] ∧
      ∃ p, run fmt0 ⟨[declEmpty], []⟩ ⟨infoE, [], []⟩ = .ok p ∧
        p.facts.lookup symE = some { fields := [] } := by
  have hscan : findStructs ⟨[declEmpty], []⟩ infoE
      = .ok [{ TypeName := some symE, fields := [] }] := rfl
  refine ⟨hscan, ?_, _, rfl, rfl⟩
  intro h
  rw [hscan] at h
  cases h

/-- C11, as amended. A sentinel-carrying declaration of a single type spec
whose type is a struct with a present but empty field list, and whose
identifier defines a named type, is eligible: the scan appends an entry for
its symbol with an empty field list, the run of a unit made of that
declaration publishes a fact without fields for the symbol, and a call of
the checker on a literal of that type reports nothing. -/
theorem findStructs_empty_struct (fmtS : Expr → String) (result : List structType)
    (pass : Pass) (exprs : List Expr) (doc : CommentGroup) (name : Ident) (p : Nat)
    (T : TypeName)
    (hsent : ∃ c, c ∈ doc.List ∧ c.Text = "//lint:exhauststruct")
    (hdef : pass.TypesInfo.Defs.lookup name = some (.Named T)) :
    findStructsVisit pass.TypesInfo result
        { Doc := some doc, Specs := [.TypeSpec name (.StructType p (some ⟨[]⟩))] }
      = .ok (result ++ [{ TypeName := some T, fields := [] }]) ∧
      (∃ pass1, run fmtS
          ⟨[{ Doc := some doc, Specs := [.TypeSpec name (.StructType p (some ⟨[]⟩))] }], exprs⟩
          pass = .ok pass1 ∧ pass1.facts = (T, { fields := [] }) :: pass.facts) ∧
      ∀ (l : CompositeLit) (push : Bool) (q : Pass), resolvesTo q.TypesInfo l T →
        q.facts.lookup T = some { fields := [] } → makeStructChecker fmtS l push q = (true, q) := by
  have hv := fun r => findStructsVisit_struct pass.TypesInfo r doc name p [] T hsent hdef
    (by simp)
  refine ⟨hv result, ?_, ?_⟩
  · have hs : findStructs
        ⟨[{ Doc := some doc, Specs := [.TypeSpec name (.StructType p (some ⟨[]⟩))] }], exprs⟩
        pass.TypesInfo = .ok [{ TypeName := some T, fields := firstNames [] }] := by
      simp only [findStructs, findStructsLoop, hv []]
      rfl
    exact ⟨_, run_eq_of_findStructs fmtS _ pass _ hs, rfl⟩
  · intro l push q hres hfact
    exact makeStructChecker_of_all_keyed fmtS l push q T [] hres hfact (by simp)

/-- C11 as amended, at `type E struct{}` under the sentinel. -/
theorem findStructs_empty_struct_witness :
    findStructsVisit infoE [] declEmpty = .ok [{ TypeName := some symE, fields := [] }] :=
  (findStructs_empty_struct fmt0 [] ⟨infoE, [], []⟩ [] ⟨[⟨"//lint:exhauststruct"⟩]⟩ ⟨26, "E"⟩ 28
    symE ⟨_, List.mem_singleton.2 rfl, rfl⟩ rfl).1

/-- C12. For a sentinel-carrying declaration of a single struct type spec
whose field entries each declare at least one name, the scan appends an
entry whose field list has one name per field entry, in declaration order,
the i-th name being the first declared name of the i-th entry.  A name is
in the list exactly when it is the first name of some entry, so a further
name of a multi-name entry is listed only if it is also some entry's first
name; and a literal that keys the first name of every entry is not
reported, whatever other names it leaves out. -/
theorem findStructs_first_names (info : Info) (result : List structType) (doc : CommentGroup)
    (name : Ident) (p : Nat) (fl : List Field) (T : TypeName)
    (hsent : ∃ c, c ∈ doc.List ∧ c.Text = "//lint:exhauststruct")
    (hdef : info.Defs.lookup name = some (.Named T))
    (hnames : ∀ f, f ∈ fl → f.Names ≠ []) :
    findStructsVisit info result
        { Doc := some doc, Specs := [.TypeSpec name (.StructType p (some ⟨fl⟩))] }
      = .ok (result ++ [{ TypeName := some T, fields := firstNames fl }]) ∧
      (firstNames fl).length = fl.length ∧
      (∀ i : Nat, (firstNames fl)[i]? =
        (fl[i]?).bind (fun f => f.Names.head?.map (fun id => id.Name))) ∧
      (∀ n, n ∈ firstNames fl ↔ ∃ f id rest, f ∈ fl ∧ f.Names = id :: rest ∧ id.Name = n) ∧
      ∀ (fmtS : Expr → String) (l : CompositeLit) (push : Bool) (pass : Pass),
        resolvesTo pass.TypesInfo l T →
        pass.facts.lookup T = some { fields := firstNames fl } →
        (∀ f id rest, f ∈ fl → f.Names = id :: rest → id.Name ∈ keyedNames fmtS l) →
        makeStructChecker fmtS l push pass = (true, pass) := by
  refine ⟨findStructsVisit_struct info result doc name p fl T hsent hdef hnames,
    firstNames_length fl hnames, firstNames_getElem fl hnames, mem_firstNames fl, ?_⟩
  intro fmtS l push pass hres hfact hkeys
  apply makeStructChecker_of_all_keyed fmtS l push pass T _ hres hfact
  intro n hn
  obtain ⟨f, id, rest, hf, hnm, rfl⟩ := (mem_firstNames fl n).1 hn
  exact hkeys f id rest hf hnm

/-- C12, at `type P struct { a, b int; c string }`: the extracted list is a, c,
and the literal `P{a: 1, c: ""}`, which leaves b out, is not reported. -/
theorem findStructs_first_names_witness :
    findStructsVisit infoP [] declP = .ok [{ TypeName := some symP, fields := ["a", "c"] }] ∧
      "b" ∉ firstNames fieldsABC ∧
      makeStructChecker fmt0 litP true ⟨infoP, [(symP, ⟨["a", "c"]⟩)], []⟩
        = (true, ⟨infoP, [(symP, ⟨["a", "c"]⟩)], []⟩) := by
  have h := findStructs_first_names infoP [] ⟨[⟨"//lint:exhauststruct"⟩]⟩ ⟨26, "P"⟩ 28
    fieldsABC symP ⟨_, List.mem_singleton.2 rfl, rfl⟩ rfl (by decide)
  refine ⟨h.1, by decide, ?_⟩
  refine h.2.2.2.2 fmt0 litP true ⟨infoP, [(symP, ⟨["a", "c"]⟩)], []⟩ (by decide) rfl ?_
  intro f id rest hf hn
  simp only [fieldsABC, List.mem_cons, List.mem_singleton, List.not_mem_nil, or_false] at hf
  rcases hf with rfl | rfl
  · injection hn with h1 h2
    subst h1
    decide
  · injection hn with h1 h2
    subst h1
    decide

/-! ## The facts that a run writes -/

theorem factEntries_append (xs ys : List structType) :
    factEntries (xs ++ ys) = factEntries xs ++ factEntries ys := by
  induction xs with
  | nil => rfl
  | cons s xs ih =>
    cases hs : s.TypeName with
    | none => simp [factEntries, hs, ih]
    | some o => simp [factEntries, hs, ih]

/-- The callback of the scan, when it does not panic, appends the entry of a
declaration group that `scanEligible` accepts and leaves the result as it was for any other
one. -/
theorem findStructsVisit_eq_ok (info : Info) (result r : List structType) (g : GenDecl)
    (h : findStructsVisit info result g = .ok r) :
    factEntries r = factEntries result ++ (declFact info g).toList ∧
      ((scanEligible g).isSome → (declFact info g).isSome) := by
  obtain ⟨doc, specs⟩ := g
  cases doc with
  | none =>
    simp only [findStructsVisit, true_or, if_true] at h
    cases h
    simp [declFact, scanEligible]
  | some d =>
    have hany := exhaustStructLoop_eq_any d.List
    rcases specs with _ | ⟨s, _ | ⟨s2, rest⟩⟩
    · simp [findStructsVisit] at h
      subst h
      simp [declFact, scanEligible]
    · cases hsent : exhaustStructLoop d.List with
      | false =>
        simp [findStructsVisit, exhaustStruct, hsent] at h
        subst h
        rw [hsent] at hany
        cases s with
        | TypeSpec name ty =>
          cases ty with
          | StructType p fields =>
            cases fields with
            | none => simp [declFact, scanEligible]
            | some fl => simp [declFact, scanEligible, ← hany]
          | Other p => simp [declFact, scanEligible]
        | ValueSpec => simp [declFact, scanEligible]
        | ImportSpec => simp [declFact, scanEligible]
      | true =>
        rw [hsent] at hany
        cases s with
        | TypeSpec name ty =>
          cases ty with
          | StructType p fields =>
            cases fields with
            | none =>
              simp [findStructsVisit, exhaustStruct, hsent] at h
              subst h
              simp [declFact, scanEligible]
            | some fl =>
              simp only [findStructsVisit, exhaustStruct, hsent] at h
              simp only [reduceCtorEq, List.length_singleton, ne_eq, not_true_eq_false, or_self,
                if_false] at h
              cases hfields : findStructsFields fl.List [] with
              | error e => rw [hfields] at h; cases h
              | ok fields =>
                rw [hfields] at h
                obtain ⟨_, hfeq⟩ := findStructsFields_eq_ok _ _ _ hfields
                simp only [List.nil_append] at hfeq
                subst hfeq
                simp only [structTypeFromGenDecl] at h
                cases hlook : info.Defs.lookup name with
                | none => rw [hlook] at h; cases h
                | some ty =>
                  rw [hlook] at h
                  cases ty with
                  | Other => cases h
                  | Named typeName =>
                    cases h
                    simp [factEntries_append, factEntries, declFact, scanEligible, ← hany, hlook]
          | Other p =>
            simp [findStructsVisit, exhaustStruct, hsent] at h
            subst h
            simp [declFact, scanEligible]
        | ValueSpec => simp [findStructsVisit, exhaustStruct, hsent] at h
        | ImportSpec => simp [findStructsVisit, exhaustStruct, hsent] at h
    · simp [findStructsVisit] at h
      subst h
      simp [declFact, scanEligible]

theorem findStructsLoop_eq_ok (info : Info) (gs : List GenDecl) :
    ∀ result r : List structType, findStructsLoop info gs result = .ok r →
      factEntries r = factEntries result ++ gs.filterMap (declFact info) ∧
        ∀ g, g ∈ gs → (scanEligible g).isSome → (declFact info g).isSome := by
  induction gs with
  | nil =>
    intro result r h
    simp only [findStructsLoop] at h
    cases h
    simp
  | cons g gs ih =>
    intro result r h
    simp only [findStructsLoop] at h
    cases hv : findStructsVisit info result g with
    | error e => rw [hv] at h; cases h
    | ok r1 =>
      rw [hv] at h
      obtain ⟨hr1, hg⟩ := findStructsVisit_eq_ok info result r1 g hv
      obtain ⟨hr, hgs⟩ := ih r1 r h
      refine ⟨?_, ?_⟩
      · rw [hr, hr1, List.append_assoc]
        congr 1
        cases hd : declFact info g <;> simp [List.filterMap_cons, hd]
      · intro g1 hg1
        rcases List.mem_cons.1 hg1 with rfl | hg1
        · exact hg
        · exact hgs g1 hg1

theorem declFact_isSome_scanEligible (info : Info) (g : GenDecl)
    (h : (declFact info g).isSome) : (scanEligible g).isSome := by
  unfold declFact at h
  cases he : scanEligible g with
  | none => rw [he] at h; simp at h
  | some x => rfl

theorem eligible_eq (g : GenDecl) :
    eligible g =
      match scanEligible g with
      | some (name, fl) => if fl = [] then none else some (name, fl)
      | none => none := by
  obtain ⟨doc, specs⟩ := g
  cases doc with
  | none => simp [eligible, scanEligible]
  | some d =>
    rcases specs with _ | ⟨s, _ | ⟨s2, rest⟩⟩
    · simp [eligible, scanEligible]
    · cases s with
      | TypeSpec name ty =>
        cases ty with
        | StructType p fields =>
          cases fields with
          | none => simp [eligible, scanEligible]
          | some fl =>
            by_cases hany : d.List.any (fun c => decide (c.Text = "//lint:exhauststruct")) = true
            · by_cases hfl : fl.List = []
              · simp [eligible, scanEligible, hany, hfl]
              · simp [eligible, scanEligible, hany, hfl]
            · simp [eligible, scanEligible, hany]
        | Other p => simp [eligible, scanEligible]
      | ValueSpec => simp [eligible, scanEligible]
      | ImportSpec => simp [eligible, scanEligible]
    · simp [eligible, scanEligible]

/-- C13, the claim refuted. The declaration `type E struct{}` under the sentinel
fails the eligibility test of the specification, for its field list is
empty; yet the run of the unit made of it writes a fact for its symbol. -/
theorem run_writes_fact_for_ineligible :
    eligible declEmpty = none ∧
      ∃ p, run fmt0 ⟨[declEmpty], []⟩ ⟨infoE, [], []⟩ = .ok p ∧
        p.facts = [(symE, { fields := [] })] :=
  ⟨rfl, _, rfl, rfl⟩

/-- C13, as amended. When a run succeeds, the store it leaves is the store it
was given with one fact put before it for each declaration group that is
the sole spec of its group, carries the sentinel doc line and is a type
spec of struct type whose field list is present, empty or not, in source
order (the newest first): the fact is keyed by the symbol the declaration
defines and carries the first names of its field entries.  No other fact
is written, the type information is untouched, and the check phase leaves
the store of any pass as it was.  Every group that is eligible in the
words of the specification is among these groups, and a group among them
that is not eligible in those words has an empty field list. -/
theorem run_writes_scanned_facts (fmtS : Expr → String) (inspect : Inspector)
    (pass pass' : Pass) (h : run fmtS inspect pass = .ok pass') :
    pass'.facts = (inspect.GenDecls.filterMap (declFact pass.TypesInfo)).reverse ++ pass.facts ∧
      (∀ g, g ∈ inspect.GenDecls →
        ((declFact pass.TypesInfo g).isSome ↔ (scanEligible g).isSome)) ∧
      (∀ g x, eligible g = some x → scanEligible g = some x) ∧
      (∀ g name fl, scanEligible g = some (name, fl) →
        eligible g = some (name, fl) ∨ (fl = [] ∧ eligible g = none)) ∧
      pass'.TypesInfo = pass.TypesInfo ∧
      ∀ p : Pass, (structCheck fmtS p inspect).facts = p.facts ∧
        (structCheck fmtS p inspect).TypesInfo = p.TypesInfo := by
  obtain ⟨structs, hs⟩ := findStructs_ok_of_run fmtS inspect pass pass' h
  rw [run_eq_of_findStructs fmtS inspect pass structs hs] at h
  cases h
  obtain ⟨hentries, hel⟩ := findStructsLoop_eq_ok pass.TypesInfo inspect.GenDecls [] structs hs
  refine ⟨?_, ?_, ?_, ?_, rfl, ?_⟩
  · simp only [hentries, factEntries, List.nil_append]
  · intro g hg
    exact ⟨declFact_isSome_scanEligible _ g, hel g hg⟩
  · intro g x hx
    rw [eligible_eq] at hx
    cases hsc : scanEligible g with
    | none => rw [hsc] at hx; cases hx
    | some y =>
      obtain ⟨name, fl⟩ := y
      rw [hsc] at hx
      by_cases hfl : fl = []
      · simp [hfl] at hx
      · simpa [hfl] using hx
  · intro g name fl hsc
    rw [eligible_eq, hsc]
    by_cases hfl : fl = []
    · exact Or.inr ⟨hfl, by simp [hfl]⟩
    · exact Or.inl (by simp [hfl])
  · intro p
    simp [structCheck, nodesList_eq]

/-- C13 as amended, at the unit of example.go over an empty store: the one fact
written is that of `myStruct`. -/
theorem run_writes_scanned_facts_witness :
    ∃ p, run fmt0 exampleInspector examplePass = .ok p ∧
      p.facts = [(symMyStruct, ⟨["field", "field2", "field3"]⟩)] :=
  ⟨_, rfl, (run_writes_scanned_facts fmt0 exampleInspector examplePass _ rfl).1⟩

/-! ## The diagnostic depends on the key set alone -/

theorem missingFields_congr (fmtS : Expr → String) (F : List String) (l1 l2 : CompositeLit)
    (h : ∀ k, k ∈ keyedNames fmtS l1 ↔ k ∈ keyedNames fmtS l2) :
    missingFields fmtS F l1 = missingFields fmtS F l2 := by
  unfold missingFields
  apply List.filter_congr
  intro f _
  simp [h f]

/-- C14. Two literals of the same opted-in type whose key lists are
permutations of one another, or name the same set of keys, get the same
message from the checker, or both none: the reported names are the fields
of the fact that are not keyed, in the order of the fact, and each
diagnostic is at its own literal's position; at equal positions the two
calls do the same. -/
theorem makeStructChecker_key_set (fmtS : Expr → String) (l1 l2 : CompositeLit) (push : Bool)
    (pass : Pass) (obj : TypeName) (F : List String)
    (h1 : resolvesTo pass.TypesInfo l1 obj) (h2 : resolvesTo pass.TypesInfo l2 obj)
    (hfact : pass.facts.lookup obj = some { fields := F })
    (hK : (keyedNames fmtS l1).Perm (keyedNames fmtS l2) ∨
      ∀ k, k ∈ keyedNames fmtS l1 ↔ k ∈ keyedNames fmtS l2) :
    missingFields fmtS F l1 = missingFields fmtS F l2 ∧
      (missingFields fmtS F l1).Sublist F ∧
      (∃ msgs : List String,
        msgs = (if missingFields fmtS F l1 = [] then []
          else ["uninitialized struct fields: " ++ ", ".intercalate (missingFields fmtS F l1)]) ∧
        makeStructChecker fmtS l1 push pass =
          (true, { pass with diagnostics :=
            pass.diagnostics ++ msgs.map (fun m => ⟨l1.Pos, m⟩) }) ∧
        makeStructChecker fmtS l2 push pass =
          (true, { pass with diagnostics :=
            pass.diagnostics ++ msgs.map (fun m => ⟨l2.Pos, m⟩) })) ∧
      (l1.Pos = l2.Pos →
        makeStructChecker fmtS l1 push pass = makeStructChecker fmtS l2 push pass) := by
  have hset : ∀ k, k ∈ keyedNames fmtS l1 ↔ k ∈ keyedNames fmtS l2 := by
    rcases hK with hp | hs
    · exact fun k => hp.mem_iff
    · exact hs
  have hmiss := missingFields_congr fmtS F l1 l2 hset
  have hc1 : makeStructChecker fmtS l1 push pass =
      (true, { pass with diagnostics := pass.diagnostics ++
        (if missingFields fmtS F l1 = [] then []
          else ["uninitialized struct fields: " ++
            ", ".intercalate (missingFields fmtS F l1)]).map (fun m => ⟨l1.Pos, m⟩) }) := by
    rw [makeStructChecker_reported]
    unfold resolvesTo at h1
    by_cases hm : missingFields fmtS F l1 = []
    · simp [reported, h1, hfact, hm]
    · simp [reported, h1, hfact, hm, message]
  have hc2 : makeStructChecker fmtS l2 push pass =
      (true, { pass with diagnostics := pass.diagnostics ++
        (if missingFields fmtS F l1 = [] then []
          else ["uninitialized struct fields: " ++
            ", ".intercalate (missingFields fmtS F l1)]).map (fun m => ⟨l2.Pos, m⟩) }) := by
    rw [makeStructChecker_reported, hmiss]
    unfold resolvesTo at h2
    by_cases hm : missingFields fmtS F l2 = []
    · simp [reported, h2, hfact, hm]
    · simp [reported, h2, hfact, hm, message]
  refine ⟨hmiss, List.filter_sublist F, ⟨_, rfl, hc1, hc2⟩, ?_⟩
  intro hpos
  rw [hc1, hc2, hpos]

/-- C14, at `S{a: 1, c: 3}` and `S{c: 3, a: 1}`: both are reported with b. -/
theorem makeStructChecker_key_set_witness :
    (makeStructChecker fmt0 litAC true passS).2.diagnostics
        = [⟨10, "uninitialized struct fields: b"⟩] ∧
      (makeStructChecker fmt0 litCA true passS).2.diagnostics
        = [⟨10, "uninitialized struct fields: b"⟩] ∧
      missingFields fmt0 ["a", "b", "c"] litAC = missingFields fmt0 ["a", "b", "c"] litCA := by
  have h := makeStructChecker_key_set fmt0 litAC litCA true passS symS ["a", "b", "c"]
    (by decide) (by decide) rfl (Or.inl (by decide))
  exact ⟨by decide, by decide, h.1⟩

/-! ## Nested literals with an elided type -/

/-- C15. In the unit of `[]S{{a: 1}}`, over a store that holds the fact of S
with fields a, b, c, the inner literal `{a: 1}` leaves b and c out and
the run reports nothing: the literal has no type expression, so the lookup
of its type finds nothing and every call of the checker on it returns
before the fields are compared, whatever the type information and store. -/
theorem run_nested_elided_unreported :
    literalsList unitNested.Exprs
        = [⟨some (.Other 10), 13, [.CompositeLit none 14 [.KeyValueExpr (.Ident ⟨15, "a"⟩) val]]⟩,
           litInner] ∧
      missingFields fmt0 ["a", "b", "c"] litInner = ["b", "c"] ∧
      (∃ p, run fmt0 unitNested passNested = .ok p ∧ p.diagnostics = []) ∧
      ∀ (fmtS : Expr → String) (push : Bool) (pass : Pass),
        makeStructChecker fmtS litInner push pass = (true, pass) := by
  refine ⟨rfl, by decide, ⟨_, rfl, rfl⟩, ?_⟩
  intro fmtS push pass
  rw [makeStructChecker_reported, reported_of_no_fact]
  · simp
  · intro obj hobj
    simp [resolvesTo, litInner] at hobj

/-! ## Scan and publication come before the check -/

/-- C16. When the scan of a unit succeeds and finds the struct of symbol T
with fields F (and no struct of T with other fields), the run succeeds, its
check phase reads the store after the publication, and every literal of the
unit whose type resolves to T and that leaves a field of F unkeyed is
reported with the unkeyed fields of F, wherever the literal stands
relative to the declaration. -/
theorem run_checks_own_declarations (fmtS : Expr → String) (inspect : Inspector) (pass : Pass)
    (structs : List structType) (T : TypeName) (F : List String) (l : CompositeLit)
    (hs : findStructs inspect pass.TypesInfo = .ok structs)
    (hT : ∃ s, s ∈ structs ∧ s.TypeName = some T)
    (huniq : ∀ s, s ∈ structs → s.TypeName = some T → s.fields = F)
    (hl : l ∈ literalsList inspect.Exprs)
    (hres : resolvesTo pass.TypesInfo l T)
    (homit : ∃ f, f ∈ F ∧ f ∉ keyedNames fmtS l) :
    ∃ pass', run fmtS inspect pass = .ok pass' ∧
      pass'.facts.lookup T = some { fields := F } ∧
      pass'.diagnostics = pass.diagnostics ++
        visitsList fmtS pass.TypesInfo pass'.facts inspect.Exprs ∧
      (⟨l.Pos, "uninitialized struct fields: " ++
        ", ".intercalate (F.filter (fun f => decide (f ∉ keyedNames fmtS l)))⟩ : Diagnostic)
        ∈ pass'.diagnostics := by
  have hlook := lookup_published structs pass.facts T F hT huniq
  have hne : missingFields fmtS F l ≠ [] := by
    obtain ⟨f, hf, hk⟩ := homit
    intro h0
    have : f ∈ missingFields fmtS F l := by simp [missingFields, hf, hk]
    simp [h0] at this
  refine ⟨_, run_eq_of_findStructs fmtS inspect pass structs hs, hlook, rfl, ?_⟩
  apply List.mem_append_right
  apply (mem_visitsList fmtS _ _ _ inspect.Exprs).2
  refine ⟨l, hl, ?_⟩
  rw [reported_of_fact fmtS _ _ l T F hres hlook hne]
  exact List.mem_singleton.2 rfl

/-- C16, at example.go: the literal `myStruct{field: ""}` at position 117 stands
before the declaration of `myStruct` at position 335 and is reported with
field2, field3. -/
theorem run_checks_own_declarations_witness :
    litMyStruct.Pos < 335 ∧
      ∃ p, run fmt0 exampleInspector examplePass = .ok p ∧
        (⟨117, "uninitialized struct fields: field2, field3"⟩ : Diagnostic) ∈ p.diagnostics := by
  obtain ⟨p, hrun, _, _, hmem⟩ := run_checks_own_declarations fmt0 exampleInspector examplePass
    [⟨some symMyStruct, ["field", "field2", "field3"]⟩] symMyStruct
    ["field", "field2", "field3"] litMyStruct rfl
    ⟨_, List.mem_singleton.2 rfl, rfl⟩
    (by intro s hs _; rw [List.mem_singleton.1 hs])
    (List.mem_cons_self _ _) (by decide) ⟨"field2", by decide, by decide⟩
  exact ⟨by decide, p, hrun, hmem⟩

end Exhauststruct
